import Mathlib

/-!
Shallow embedding of the geometry-intersection and light-sampling core of the
SORT renderer (src/src/core/scene.cpp), together with theorems checking the
specification claims against it.

Floating-point values are modelled as exact rationals.  The IEEE float
maximum FLT_MAX is the exact rational value of the largest finite float.
Where a C++ float expression can produce a non-finite value (NaN or Inf),
the model uses Option, with none standing for the non-finite result.
-/

/-- The exact rational value of the largest finite IEEE single-precision
float, used by the code as the sentinel distance of a fresh hit record. -/
def FLT_MAX : ℚ := (2 ^ 24 - 1) * 2 ^ 104

/-- A ray.  Only the maximal parametric distance field of the source Ray
class is relevant to the claims; origin, direction and the remaining
fields enter only through the abstract geometric hit parameter carried by
each primitive. -/
structure Ray where
  m_fMax : ℚ

/-- Axis-aligned bounding box corner point, from the source vector class
(three float coordinates). -/
structure Point3 where
  x : ℚ
  y : ℚ
  z : ℚ
deriving DecidableEq

/-- Modelled from the spec: the BBox class is not under src/.  Per the spec
it is an axis-aligned box given by min and max corners, mutated only by
union with another box, with a canonical empty sentinel. -/
structure BBox where
  pmin : Point3
  pmax : Point3
deriving DecidableEq

/-- Modelled from the spec: box union returns the smallest box containing
both, computed componentwise. -/
def BBox.Union (a b : BBox) : BBox :=
  ⟨⟨min a.pmin.x b.pmin.x, min a.pmin.y b.pmin.y, min a.pmin.z b.pmin.z⟩,
   ⟨max a.pmax.x b.pmax.x, max a.pmax.y b.pmax.y, max a.pmax.z b.pmax.z⟩⟩

/-- Modelled from the spec: the canonical empty-box sentinel (min corner at
the float maximum, max corner at its negation), the value of a freshly
constructed scene bounding-box field. -/
def emptyBBox : BBox :=
  ⟨⟨FLT_MAX, FLT_MAX, FLT_MAX⟩, ⟨-FLT_MAX, -FLT_MAX, -FLT_MAX⟩⟩

/-- A primitive.  The triangle intersection math is out of scope of the
core (spec section 1), so each primitive carries an abstract geometric hit
parameter per ray (none when the underlying math reports no hit), plus the
stable identifier and cached bounding box of the source Triangle class. -/
structure Primitive where
  m_id : Nat
  ghit : Ray → Option ℚ
  bbox : BBox

/-- The hit record (source class Intersection).  The fields the claims
concern: the current best parametric distance and the primitive pointer
(none models the null pointer).  The remaining surface-data fields of the
source class play no role in the claims. -/
structure Intersection where
  t : ℚ
  primitive : Option Primitive

/-- Modelled from the spec: Primitive::GetIntersect is not under src/.
Per spec sections 4.2 and 4.5, when a hit record is supplied it is updated
in place exactly when the geometric hit parameter lies in the valid range
(nonnegative and strictly below the ray maximum, the strict bound being the
convention the brute-force scan in scene.cpp itself applies) and is
strictly closer than the running best in the record. -/
def Primitive.recUpdate (p : Primitive) (r : Ray) (is : Intersection) : Intersection :=
  match p.ghit r with
  | none => is
  | some t0 => if 0 ≤ t0 ∧ t0 < r.m_fMax ∧ t0 < is.t then ⟨t0, some p⟩ else is

/-- Modelled from the spec: the boolean result of Primitive::GetIntersect.
With a hit record the return value reports a hit within the valid range
(the brute-force caller ignores it on this path); with no record the call
is a pure existence test on the geometric hit (spec section 9 notes that
the valid-range check of the record path is not applied there). -/
def Primitive.GetIntersect (p : Primitive) (r : Ray) : Option Intersection → Bool × Option Intersection
  | none => ((p.ghit r).isSome, none)
  | some is =>
      (match p.ghit r with
       | none => false
       | some t0 => decide (0 ≤ t0 ∧ t0 < r.m_fMax), some (p.recUpdate r is))

/-- The valid-range hit parameter a primitive contributes for a ray, if
any: the geometric hit when it is nonnegative and strictly below the ray
maximum. -/
def candT (r : Ray) (p : Primitive) : Option ℚ :=
  match p.ghit r with
  | none => none
  | some t0 => if 0 ≤ t0 ∧ t0 < r.m_fMax then some t0 else none

/-- All valid-range hit parameters contributed by a primitive buffer. -/
def candsOf (r : Ray) (buf : List Primitive) : List ℚ :=
  buf.filterMap (candT r)

/-- The loop of Scene::_bfIntersect on the no-record path: test each
primitive in order and return true on the first one whose intersection
test reports a hit. -/
def Scene.bfLoopShadow (r : Ray) : List Primitive → Bool
  | [] => false
  | p :: ps => if (Primitive.GetIntersect p r none).1 then true else Scene.bfLoopShadow r ps

/-- The loop of Scene::_bfIntersect on the record path: each primitive in
turn updates the running hit record (the boolean flag it returns is unused
on this path, exactly as in the source loop). -/
def Scene.bfLoopHit (r : Ray) : Intersection → List Primitive → Intersection
  | is, [] => is
  | is, p :: ps => Scene.bfLoopHit r (p.recUpdate r is) ps

/-- Scene::_bfIntersect from scene.cpp lines 98-112: reset the record
distance to FLT_MAX, run the loop, and on the record path report a hit
exactly when the final distance is strictly below the ray maximum and the
record primitive pointer is non-null. -/
def Scene._bfIntersect (buf : List Primitive) (r : Ray) : Option Intersection → Bool × Option Intersection
  | none => (Scene.bfLoopShadow r buf, none)
  | some is =>
      let fin := Scene.bfLoopHit r { is with t := FLT_MAX } buf
      (decide (fin.t < r.m_fMax) && fin.primitive.isSome, some fin)

/-- Modelled from the spec: the configured Accelerator variant is not under
src/.  Per spec section 4.4 its intersect has the same contract as the
primitive test composed over many primitives: with a hit record it must
write the globally closest valid-range hit, and with no record it is an
any-hit existence test.  This definition returns that closest hit
directly, breaking distance ties towards the front of the buffer. -/
def closestHit (r : Ray) : List Primitive → Option Intersection
  | [] => none
  | p :: ps =>
      match candT r p with
      | none => closestHit r ps
      | some t0 =>
          match closestHit r ps with
          | none => some ⟨t0, some p⟩
          | some best => if t0 ≤ best.t then some ⟨t0, some p⟩ else some best

/-- Modelled from the spec: Accelerator::GetIntersect per spec section 4.4
(globally closest hit when a record is supplied, any-hit otherwise). -/
def accelIntersect (buf : List Primitive) (r : Ray) : Option Intersection → Bool × Option Intersection
  | none => (buf.any (fun p => (p.ghit r).isSome), none)
  | some is =>
      match closestHit r buf with
      | some best => (true, some best)
      | none => (false, some is)

/-- Scene::GetIntersect from scene.cpp lines 85-95: reset the supplied
record distance to FLT_MAX, then delegate to the accelerator when one is
configured and to the brute-force path otherwise. -/
def Scene.GetIntersect (useAccel : Bool) (buf : List Primitive) (r : Ray)
    (o : Option Intersection) : Bool × Option Intersection :=
  let o1 := o.map (fun is => { is with t := FLT_MAX })
  if useAccel then accelIntersect buf r o1 else Scene._bfIntersect buf r o1

/-- Scene::GetBBox from scene.cpp lines 162-175, with the state passed
explicitly: when an accelerator is configured its box is returned and the
cached member is untouched; otherwise every primitive box is unioned into
the cached member field, which is returned.  The result pair is (returned
box, cached member field after the call). -/
def Scene.GetBBox (accelBox : Option BBox) (buf : List Primitive) (mBBox : BBox) : BBox × BBox :=
  match accelBox with
  | some b => (b, mBBox)
  | none =>
      let b := buf.foldl (fun acc p => acc.Union p.bbox) mBBox
      (b, b)

/-- The union of the bounding boxes of all primitives, written directly
from the words of the spec (fold of box union over the buffer starting
from the empty sentinel), to be compared with the member-accumulating loop
of the source. -/
def unionAllBoxes (buf : List Primitive) : BBox :=
  buf.foldr (fun p acc => BBox.Union p.bbox acc) emptyBBox

/-- A light: the scalar power returned by Power().GetIntensity() and the
pick-probability field written by SetPickPDF.  The field is an Option so
that none can record a non-finite (NaN or Inf) float being stored. -/
structure Light where
  power : ℚ
  pickPdf : Option ℚ
deriving DecidableEq

/-- Float division as the source performs it: when the divisor is zero the
IEEE result is non-finite (NaN for a zero dividend, Inf otherwise),
modelled as none; otherwise the exact quotient. -/
def fdiv (a b : ℚ) : Option ℚ :=
  if b = 0 then none else some (a / b)

/-- Inclusive prefix sums with an accumulator. -/
def prefixSumsAux (acc : ℚ) : List ℚ → List ℚ
  | [] => []
  | x :: xs => (acc + x) :: prefixSumsAux (acc + x) xs

/-- Inclusive prefix sums of a weight list. -/
def prefixSums (l : List ℚ) : List ℚ :=
  prefixSumsAux 0 l

/-- Index of the first entry greater than or equal to u, the extensional
content of the binary search the spec describes. -/
def firstGE (u : ℚ) : List ℚ → Option Nat
  | [] => none
  | c :: cs => if u ≤ c then some 0 else (firstGE u cs).map Nat.succ

/-- Modelled from the spec: the Distribution1D class is not under src/.
Per spec section 4.3 it holds the weight count, the cumulative sums
normalized by the total so the table ranges over the unit interval (empty
when the total is zero), the raw total, and the clamped weights. -/
structure Distribution1D where
  count : Nat
  cdf : List ℚ
  total : ℚ
  weights : List ℚ
deriving DecidableEq

/-- Modelled from the spec: Distribution1D construction per spec section
4.3: negative weights are treated as zero, prefix sums are computed, and
when the total is nonzero the cumulative table is normalized by it;  a
zero total leaves the distribution empty. -/
def Distribution1D.build (f : List ℚ) : Distribution1D :=
  let w := f.map (fun x => max x 0)
  let total := w.sum
  ⟨f.length, if total = 0 then [] else (prefixSums w).map (fun c => c / total), total, w⟩

/-- Modelled from the spec: Distribution1D::SampleDiscrete per spec
section 4.3: on an empty (zero-total) distribution it fails with the
sentinel index -1 and pdf 0; otherwise it locates the first cumulative
entry at or above u and returns that index with its normalized mass,
clamping to the last index when u exceeds every entry. -/
def Distribution1D.SampleDiscrete (d : Distribution1D) (u : ℚ) : Int × ℚ :=
  if d.total = 0 then (-1, 0)
  else
    match firstGE u d.cdf with
    | some i => ((i : Int), d.weights.getD i 0 / d.total)
    | none => ((d.count : Int) - 1, d.weights.getD (d.count - 1) 0 / d.total)

/-- Scene::_genLightDistribution from scene.cpp lines 178-197: do nothing
when there are no lights; otherwise gather every light power, total them,
store power divided by the total into each light via SetPickPDF (the
division is unguarded in the source, so a zero total stores a non-finite
value, modelled as none), and build the distribution over the powers.
Returns the updated light list and the built distribution. -/
def Scene._genLightDistribution (lights : List Light) : List Light × Option Distribution1D :=
  if lights.length = 0 then (lights, none)
  else
    let pdf := lights.map Light.power
    let total := pdf.sum
    (lights.map (fun l => { l with pickPdf := fdiv l.power total }),
     some (Distribution1D.build pdf))

/-- The assertion sites of the source (sAssert tags). -/
inductive AssertKind where
  | sampling
  | light
deriving DecidableEq

/-- Scene::SampleLight from scene.cpp lines 200-212: assert the sample is
in the unit interval, assert the distribution exists (this assertion fires
whenever the scene has no lights, since the distribution is then never
built), sample the distribution, and return the chosen light with its pdf
when the index is in range with a nonzero pdf, and the null light
otherwise. -/
def Scene.SampleLight (lights : List Light) (dis : Option Distribution1D) (u : ℚ) :
    Except AssertKind (Option (Light × ℚ)) :=
  if ¬ (0 ≤ u ∧ u ≤ 1) then .error .sampling
  else
    match dis with
    | none => .error .sampling
    | some d =>
        let res := d.SampleDiscrete u
        if 0 ≤ res.1 ∧ res.1 < (lights.length : Int) ∧ res.2 ≠ 0 then
          .ok (some (lights.getD res.1.toNat ⟨0, none⟩, res.2))
        else
          .ok none

/-- A concrete unit-ish bounding box for fixtures. -/
def boxW : BBox := ⟨⟨0, 0, 0⟩, ⟨1, 1, 1⟩⟩

/-- A concrete primitive whose geometric hit parameter is 1 for every ray. -/
def pW0 : Primitive := ⟨0, fun _ => some 1, boxW⟩

/-- A second concrete primitive, distinct from pW0, also hitting at 1. -/
def pW1 : Primitive := ⟨1, fun _ => some 1, boxW⟩

/-- A concrete primitive whose intersection math never reports a hit. -/
def pWmiss : Primitive := ⟨2, fun _ => none, boxW⟩

/-- A concrete ray with maximal parametric distance 2. -/
def rW : Ray := ⟨2⟩

/-- A concrete hit record with arbitrary prior contents (null primitive). -/
def isW : Intersection := ⟨0, none⟩

/-- A concrete hit record with different prior contents (stale distance and
a stale non-null primitive pointer). -/
def isW2 : Intersection := ⟨7, some pW0⟩

/-- A concrete light of power 1. -/
def lightA : Light := ⟨1, none⟩

/-- A concrete light of power 3. -/
def lightB : Light := ⟨3, none⟩

/-- A concrete light of power 0. -/
def lightZ : Light := ⟨0, none⟩

theorem candT_bounds {r : Ray} {p : Primitive} {t0 : ℚ} (h : candT r p = some t0) :
    0 ≤ t0 ∧ t0 < r.m_fMax := by
  unfold candT at h
  split at h
  · exact absurd h (by simp)
  · split at h
    · cases h
      assumption
    · exact absurd h (by simp)

theorem mem_candsOf {r : Ray} {buf : List Primitive} {t0 : ℚ} :
    t0 ∈ candsOf r buf ↔ ∃ p ∈ buf, candT r p = some t0 := by
  simp [candsOf, List.mem_filterMap]

theorem candsOf_cons (r : Ray) (p : Primitive) (ps : List Primitive) :
    candsOf r (p :: ps) =
      match candT r p with
      | none => candsOf r ps
      | some t0 => t0 :: candsOf r ps := by
  cases h : candT r p <;> simp [candsOf, List.filterMap_cons, h]

theorem recUpdate_of_cand_none {r : Ray} {p : Primitive} (is : Intersection)
    (h : candT r p = none) : p.recUpdate r is = is := by
  unfold candT at h
  unfold Primitive.recUpdate
  split at h
  · rfl
  · next t0 heq =>
      split at h
      · exact absurd h (by simp)
      · next hc => rw [if_neg (by tauto : ¬ (0 ≤ t0 ∧ t0 < r.m_fMax ∧ t0 < is.t))]

theorem recUpdate_of_cand_some {r : Ray} {p : Primitive} {t0 : ℚ} (is : Intersection)
    (h : candT r p = some t0) :
    p.recUpdate r is = if t0 < is.t then ⟨t0, some p⟩ else is := by
  unfold candT at h
  unfold Primitive.recUpdate
  split at h
  · exact absurd h (by simp)
  · next t1 heq =>
      split at h
      · next hc =>
          cases h
          by_cases hlt : t0 < is.t
          · rw [if_pos ⟨hc.1, hc.2, hlt⟩, if_pos hlt]
          · rw [if_neg (by tauto), if_neg hlt]
      · exact absurd h (by simp)

theorem bfLoopHit_t (r : Ray) (buf : List Primitive) :
    ∀ is : Intersection, (Scene.bfLoopHit r is buf).t = (candsOf r buf).foldl min is.t := by
  induction buf with
  | nil => intro is; rfl
  | cons p ps ih =>
      intro is
      rw [Scene.bfLoopHit, candsOf_cons]
      cases h : candT r p with
      | none => rw [recUpdate_of_cand_none is h]; exact ih is
      | some t0 =>
          rw [recUpdate_of_cand_some is h]
          by_cases hlt : t0 < is.t
          · rw [if_pos hlt]
            simp only [List.foldl_cons]
            rw [ih ⟨t0, some p⟩, min_eq_right (le_of_lt hlt)]
          · rw [if_neg hlt]
            simp only [List.foldl_cons]
            rw [ih is, min_eq_left (le_of_not_lt hlt)]

theorem bfLoopHit_isSome (r : Ray) (buf : List Primitive) :
    ∀ is : Intersection, (Scene.bfLoopHit r is buf).primitive.isSome =
      (is.primitive.isSome || (candsOf r buf).any (fun t0 => decide (t0 < is.t))) := by
  induction buf with
  | nil => intro is; simp [Scene.bfLoopHit, candsOf]
  | cons p ps ih =>
      intro is
      rw [Scene.bfLoopHit, candsOf_cons]
      cases h : candT r p with
      | none => rw [recUpdate_of_cand_none is h]; exact ih is
      | some t0 =>
          rw [recUpdate_of_cand_some is h]
          by_cases hlt : t0 < is.t
          · rw [if_pos hlt, ih ⟨t0, some p⟩]
            simp [hlt]
          · rw [if_neg hlt, ih is]
            simp [hlt]

theorem bfLoopHit_of_no_cand (r : Ray) (buf : List Primitive)
    (h : candsOf r buf = []) : ∀ is : Intersection, Scene.bfLoopHit r is buf = is := by
  induction buf with
  | nil => intro is; rfl
  | cons p ps ih =>
      intro is
      rw [candsOf_cons] at h
      cases hc : candT r p with
      | none =>
          rw [hc] at h
          rw [Scene.bfLoopHit, recUpdate_of_cand_none is hc]
          exact ih h is
      | some t0 => rw [hc] at h; exact absurd h (by simp)

theorem foldl_min_le_init (l : List ℚ) : ∀ a : ℚ, l.foldl min a ≤ a := by
  induction l with
  | nil => intro a; exact le_refl a
  | cons x xs ih => intro a; exact le_trans (ih (min a x)) (min_le_left a x)

theorem foldl_min_le_mem (l : List ℚ) : ∀ a x : ℚ, x ∈ l → l.foldl min a ≤ x := by
  induction l with
  | nil => intro a x hx; exact absurd hx (by simp)
  | cons y ys ih =>
      intro a x hx
      rcases List.mem_cons.1 hx with h | h
      · subst h
        exact le_trans (foldl_min_le_init ys (min a x)) (min_le_right a x)
      · exact ih (min a y) x h

theorem foldl_min_mem_or (l : List ℚ) : ∀ a : ℚ, l.foldl min a = a ∨ l.foldl min a ∈ l := by
  induction l with
  | nil => intro a; exact Or.inl rfl
  | cons x xs ih =>
      intro a
      rcases ih (min a x) with h | h
      · rcases min_choice a x with h2 | h2
        · rw [List.foldl_cons, h, h2]; exact Or.inl rfl
        · rw [List.foldl_cons, h, h2]; exact Or.inr (List.mem_cons_self x xs)
      · exact Or.inr (List.mem_cons_of_mem x h)

theorem foldl_min_of_le (l : List ℚ) : ∀ a : ℚ, (∀ x ∈ l, a ≤ x) → l.foldl min a = a := by
  induction l with
  | nil => intro a _; rfl
  | cons x xs ih =>
      intro a h
      rw [List.foldl_cons, min_eq_left (h x (List.mem_cons_self x xs))]
      exact ih a (fun y hy => h y (List.mem_cons_of_mem x hy))

theorem foldl_min_perm {l l' : List ℚ} (h : l.Perm l') : ∀ a : ℚ, l.foldl min a = l'.foldl min a := by
  induction h with
  | nil => intro a; rfl
  | cons x _ ih => intro a; rw [List.foldl_cons, List.foldl_cons]; exact ih (min a x)
  | swap x y l =>
      intro a
      rw [List.foldl_cons, List.foldl_cons, List.foldl_cons, List.foldl_cons, min_right_comm]
  | trans _ _ ih1 ih2 => intro a; rw [ih1 a, ih2 a]

theorem bfLoopShadow_eq_any (r : Ray) (buf : List Primitive) :
    Scene.bfLoopShadow r buf = buf.any (fun p => (p.ghit r).isSome) := by
  induction buf with
  | nil => rfl
  | cons p ps ih =>
      rw [Scene.bfLoopShadow, List.any_cons]
      cases h : (Primitive.GetIntersect p r none).1 with
      | true =>
          have : (p.ghit r).isSome = true := h
          simp [this]
      | false =>
          have : (p.ghit r).isSome = false := h
          simp [this, ih]

theorem mem_candsOf_bounds {r : Ray} {buf : List Primitive} {t0 : ℚ}
    (h : t0 ∈ candsOf r buf) : 0 ≤ t0 ∧ t0 < r.m_fMax := by
  obtain ⟨p, _, hp⟩ := mem_candsOf.1 h
  exact candT_bounds hp

theorem candsOf_ne_nil_iff {r : Ray} {buf : List Primitive} :
    candsOf r buf ≠ [] ↔ ∃ p ∈ buf, (candT r p).isSome := by
  constructor
  · intro hne
    obtain ⟨t0, ht0⟩ := List.exists_mem_of_ne_nil _ hne
    obtain ⟨p, hp, hc⟩ := mem_candsOf.1 ht0
    exact ⟨p, hp, by simp [hc]⟩
  · rintro ⟨p, hp, hc⟩ hnil
    obtain ⟨t0, ht0⟩ := Option.isSome_iff_exists.1 hc
    have := mem_candsOf.2 ⟨p, hp, ht0⟩
    rw [hnil] at this
    exact absurd this (by simp)

theorem bf_record_fin (buf : List Primitive) (r : Ray) (is : Intersection) :
    Scene._bfIntersect buf r (some is)
      = (decide ((Scene.bfLoopHit r ⟨FLT_MAX, is.primitive⟩ buf).t < r.m_fMax)
          && (Scene.bfLoopHit r ⟨FLT_MAX, is.primitive⟩ buf).primitive.isSome,
         some (Scene.bfLoopHit r ⟨FLT_MAX, is.primitive⟩ buf)) := rfl

theorem bf_true_iff (buf : List Primitive) (r : Ray) (is : Intersection)
    (hr : r.m_fMax ≤ FLT_MAX) :
    ((Scene._bfIntersect buf r (some is)).1 = true ↔ candsOf r buf ≠ []) := by
  rw [bf_record_fin]
  simp only [Bool.and_eq_true, decide_eq_true_eq]
  constructor
  · rintro ⟨hlt, _⟩ hnil
    rw [bfLoopHit_t, hnil] at hlt
    exact absurd hlt (not_lt.2 hr)
  · intro hne
    obtain ⟨t0, ht0⟩ := List.exists_mem_of_ne_nil _ hne
    obtain ⟨h0, hmax⟩ := mem_candsOf_bounds ht0
    constructor
    · rw [bfLoopHit_t]
      exact lt_of_le_of_lt (foldl_min_le_mem _ _ _ ht0) hmax
    · rw [bfLoopHit_isSome]
      refine Bool.or_eq_true_iff.2 (Or.inr ?_)
      rw [List.any_eq_true]
      exact ⟨t0, ht0, by simpa using lt_of_lt_of_le hmax hr⟩

theorem bf_false_fin (buf : List Primitive) (r : Ray) (is : Intersection)
    (hr : r.m_fMax ≤ FLT_MAX) (hf : (Scene._bfIntersect buf r (some is)).1 = false) :
    (Scene._bfIntersect buf r (some is)).2 = some ⟨FLT_MAX, is.primitive⟩ := by
  have hnil : candsOf r buf = [] := by
    by_contra hne
    rw [(bf_true_iff buf r is hr).2 hne] at hf
    exact Bool.noConfusion hf
  rw [bf_record_fin]
  simp only [Prod.snd]
  rw [bfLoopHit_of_no_cand r buf hnil]

/-- C3: with no hit record supplied, the brute-force path of
Scene::GetIntersect is an existence test: it returns true exactly when at
least one primitive in the buffer reports an intersection with the ray
(the loop returning on the first such primitive found), false when none
does, and it produces no hit record. -/
theorem C3_shadow_existence (buf : List Primitive) (r : Ray) :
    ((Scene._bfIntersect buf r none).1 = true
      ↔ ∃ p ∈ buf, (Primitive.GetIntersect p r none).1 = true)
    ∧ (Scene._bfIntersect buf r none).2 = none := by
  constructor
  · show Scene.bfLoopShadow r buf = true ↔ _
    rw [bfLoopShadow_eq_any, List.any_eq_true]
    simp [Primitive.GetIntersect]
  · rfl

/-- C2: on the brute-force path with a hit record supplied, a hit is
reported exactly when some primitive intersects the ray within its valid
range; the reported distance then is nonnegative, at most the ray maximum,
and the minimum valid-range hit parameter over all primitives in the
buffer; when nothing qualifies the call returns false and the record
distance is left at FLT_MAX. -/
theorem C2_bruteforce_closest_hit (buf : List Primitive) (r : Ray) (is : Intersection)
    (hr : r.m_fMax ≤ FLT_MAX) :
    ((Scene._bfIntersect buf r (some is)).1 = true ↔ ∃ p ∈ buf, (candT r p).isSome)
    ∧ ((Scene._bfIntersect buf r (some is)).1 = true →
        ∃ fin, (Scene._bfIntersect buf r (some is)).2 = some fin
          ∧ 0 ≤ fin.t ∧ fin.t ≤ r.m_fMax
          ∧ (∃ p ∈ buf, candT r p = some fin.t)
          ∧ (∀ p ∈ buf, ∀ t0, candT r p = some t0 → fin.t ≤ t0))
    ∧ ((Scene._bfIntersect buf r (some is)).1 = false →
        (Scene._bfIntersect buf r (some is)).2 = some ⟨FLT_MAX, is.primitive⟩) := by
  refine ⟨(bf_true_iff buf r is hr).trans candsOf_ne_nil_iff, ?_, bf_false_fin buf r is hr⟩
  intro htrue
  refine ⟨Scene.bfLoopHit r ⟨FLT_MAX, is.primitive⟩ buf, rfl, ?_⟩
  have hlt : (Scene.bfLoopHit r ⟨FLT_MAX, is.primitive⟩ buf).t < r.m_fMax := by
    have := htrue
    rw [bf_record_fin] at this
    simp only [Bool.and_eq_true, decide_eq_true_eq] at this
    exact this.1
  have hmem : (Scene.bfLoopHit r ⟨FLT_MAX, is.primitive⟩ buf).t ∈ candsOf r buf := by
    rcases foldl_min_mem_or (candsOf r buf) FLT_MAX with h | h
    · rw [bfLoopHit_t] at hlt
      rw [h] at hlt
      exact absurd hlt (not_lt.2 hr)
    · rw [bfLoopHit_t]
      exact h
  refine ⟨(mem_candsOf_bounds hmem).1, le_of_lt hlt, mem_candsOf.1 hmem, ?_⟩
  intro p hp t0 hc
  rw [bfLoopHit_t]
  exact foldl_min_le_mem _ _ _ (mem_candsOf.2 ⟨p, hp, hc⟩)

theorem bool_eq_of_iff {a b : Bool} (h : (a = true) ↔ (b = true)) : a = b := by
  cases a <;> cases b <;> simp_all

theorem list_any_perm {α : Type} {l l' : List α} (h : l.Perm l') (f : α → Bool) :
    l.any f = l'.any f := by
  apply bool_eq_of_iff
  rw [List.any_eq_true, List.any_eq_true]
  constructor <;> rintro ⟨x, hx, hfx⟩
  · exact ⟨x, h.mem_iff.1 hx, hfx⟩
  · exact ⟨x, h.mem_iff.2 hx, hfx⟩

theorem closestHit_none_iff (r : Ray) (buf : List Primitive) :
    closestHit r buf = none ↔ candsOf r buf = [] := by
  induction buf with
  | nil => simp [closestHit, candsOf]
  | cons p ps ih =>
      cases hc : candT r p with
      | none => simp [closestHit, candsOf_cons, hc, ih]
      | some t0 =>
          cases hb : closestHit r ps with
          | none => simp [closestHit, candsOf_cons, hc, hb]
          | some best =>
              by_cases hle : t0 ≤ best.t <;>
                simp [closestHit, candsOf_cons, hc, hb, hle]

theorem closestHit_min (r : Ray) (buf : List Primitive) :
    ∀ b : Intersection, closestHit r buf = some b →
      b.t ∈ candsOf r buf ∧ ∀ t0 ∈ candsOf r buf, b.t ≤ t0 := by
  induction buf with
  | nil => intro b hb; exact absurd hb (by simp [closestHit])
  | cons p ps ih =>
      intro b hb
      cases hc : candT r p with
      | none =>
          rw [closestHit] at hb
          rw [hc] at hb
          obtain ⟨hmem, hmin⟩ := ih b hb
          rw [candsOf_cons, hc]
          refine ⟨hmem, hmin⟩
      | some t0 =>
          rw [closestHit] at hb
          rw [hc] at hb
          rw [candsOf_cons, hc]
          cases hrec : closestHit r ps with
          | none =>
              rw [hrec] at hb
              cases hb
              have hnil : candsOf r ps = [] := (closestHit_none_iff r ps).1 hrec
              rw [hnil]
              exact ⟨List.mem_singleton_self t0, by
                intro x hx
                rw [List.mem_singleton] at hx
                rw [hx]⟩
          | some best =>
              rw [hrec] at hb
              replace hb : (if t0 ≤ best.t then some (⟨t0, some p⟩ : Intersection)
                  else some best) = some b := hb
              obtain ⟨hmem, hmin⟩ := ih best hrec
              show b.t ∈ t0 :: candsOf r ps ∧ ∀ x ∈ t0 :: candsOf r ps, b.t ≤ x
              by_cases hle : t0 ≤ best.t
              · rw [if_pos hle] at hb
                cases hb
                refine ⟨List.mem_cons_self t0 _, ?_⟩
                intro x hx
                rcases List.mem_cons.1 hx with h | h
                · rw [h]
                · exact le_trans hle (hmin x h)
              · rw [if_neg hle] at hb
                cases hb
                refine ⟨List.mem_cons_of_mem t0 hmem, ?_⟩
                intro x hx
                rcases List.mem_cons.1 hx with h | h
                · rw [h]; exact le_of_lt (lt_of_not_le hle)
                · exact hmin x h

/-- C1: for every primitive buffer, ray (with a float-representable
maximum) and optional hit record, Scene::GetIntersect run with an
accelerator configured and run with no accelerator (the brute-force path)
return the same hit/no-hit boolean, and the recorded hit distances agree
exactly. -/
theorem C1_accelerator_bruteforce_agree (buf : List Primitive) (r : Ray)
    (o : Option Intersection) (hr : r.m_fMax ≤ FLT_MAX) :
    (Scene.GetIntersect true buf r o).1 = (Scene.GetIntersect false buf r o).1
    ∧ ((Scene.GetIntersect true buf r o).2).map Intersection.t
        = ((Scene.GetIntersect false buf r o).2).map Intersection.t := by
  cases o with
  | none =>
      constructor
      · show (buf.any fun p => (p.ghit r).isSome) = Scene.bfLoopShadow r buf
        rw [bfLoopShadow_eq_any]
      · rfl
  | some is =>
      rcases hch : closestHit r buf with _ | best
      · have hnil : candsOf r buf = [] := (closestHit_none_iff r buf).1 hch
        have hbf : (Scene._bfIntersect buf r (some ⟨FLT_MAX, is.primitive⟩)).1 = false := by
          cases hb : (Scene._bfIntersect buf r (some ⟨FLT_MAX, is.primitive⟩)).1 with
          | false => rfl
          | true => exact absurd hnil ((bf_true_iff buf r ⟨FLT_MAX, is.primitive⟩ hr).1 hb)
        have hac : Scene.GetIntersect true buf r (some is) = (false, some ⟨FLT_MAX, is.primitive⟩) := by
          show accelIntersect buf r (some ⟨FLT_MAX, is.primitive⟩) = _
          unfold accelIntersect
          rw [hch]
        have h2 := bf_false_fin buf r ⟨FLT_MAX, is.primitive⟩ hr hbf
        constructor
        · rw [hac]
          exact hbf.symm
        · rw [hac]
          have h3 : (Scene.GetIntersect false buf r (some is)).2
              = some (⟨FLT_MAX, is.primitive⟩ : Intersection) := h2
          rw [h3]
      · obtain ⟨hmem, hmin⟩ := closestHit_min r buf best hch
        have hne : candsOf r buf ≠ [] := List.ne_nil_of_mem hmem
        have hbf : (Scene._bfIntersect buf r (some ⟨FLT_MAX, is.primitive⟩)).1 = true :=
          (bf_true_iff buf r ⟨FLT_MAX, is.primitive⟩ hr).2 hne
        have hac : Scene.GetIntersect true buf r (some is) = (true, some best) := by
          show accelIntersect buf r (some ⟨FLT_MAX, is.primitive⟩) = _
          unfold accelIntersect
          rw [hch]
        have ht : (Scene.bfLoopHit r ⟨FLT_MAX, is.primitive⟩ buf).t = best.t := by
          rw [bfLoopHit_t]
          refine le_antisymm (foldl_min_le_mem _ _ _ hmem) ?_
          rcases foldl_min_mem_or (candsOf r buf) FLT_MAX with h | h
          · rw [h]
            exact le_of_lt (lt_of_lt_of_le (mem_candsOf_bounds hmem).2 hr)
          · exact hmin _ h
        constructor
        · rw [hac]
          exact hbf.symm
        · rw [hac]
          show some best.t = some ((Scene.bfLoopHit r ⟨FLT_MAX, is.primitive⟩ buf).t)
          rw [ht]

/-- C1 witness: on a concrete one-primitive buffer and ray, both
configurations report a hit. -/
theorem C1_witness :
    rW.m_fMax ≤ FLT_MAX
    ∧ (Scene.GetIntersect true [pW0] rW (some isW)).1
        = (Scene.GetIntersect false [pW0] rW (some isW)).1 :=
  ⟨by norm_num [rW, FLT_MAX],
   (C1_accelerator_bruteforce_agree [pW0] rW (some isW) (by norm_num [rW, FLT_MAX])).1⟩

/-- C2 witness: on a concrete one-primitive buffer whose primitive hits at
distance 1 with ray maximum 2, the brute-force path reports a hit. -/
theorem C2_witness :
    rW.m_fMax ≤ FLT_MAX ∧ (Scene._bfIntersect [pW0] rW (some isW)).1 = true :=
  ⟨by norm_num [rW, FLT_MAX],
   (C2_bruteforce_closest_hit [pW0] rW isW (by norm_num [rW, FLT_MAX])).1.2
     ⟨pW0, List.mem_singleton_self pW0, by norm_num [candT, pW0, rW]⟩⟩

/-- C10 counterexample: two runs of Scene::GetIntersect on the same empty
scene and ray but with hit records holding different prior contents leave
different final record contents (the stale primitive pointer of the first
record survives, only the distance field is reset), refuting the claim
that the final hit-record contents agree for every pair of prior
records. -/
theorem C10_counterexample :
    (Scene.GetIntersect false [] rW (some isW)).2
      ≠ (Scene.GetIntersect false [] rW (some isW2)).2 := by
  have e1 : (Scene.GetIntersect false [] rW (some isW)).2
      = some (⟨FLT_MAX, none⟩ : Intersection) := by
    simp [Scene.GetIntersect, Scene._bfIntersect, Scene.bfLoopHit, isW]
  have e2 : (Scene.GetIntersect false [] rW (some isW2)).2
      = some (⟨FLT_MAX, some pW0⟩ : Intersection) := by
    simp [Scene.GetIntersect, Scene._bfIntersect, Scene.bfLoopHit, isW2]
  rw [e1, e2]
  intro h
  simp at h

/-- C10 amended: for every pair of supplied hit records with arbitrary
prior contents, Scene::GetIntersect returns the same boolean and the same
final hit distance (the distance field is overwritten to FLT_MAX on entry,
so the distance outcome depends only on the ray and the scene); the other
record fields, such as the primitive pointer, may retain prior caller
contents when nothing qualifies. -/
theorem C10_record_independent (useAccel : Bool) (buf : List Primitive) (r : Ray)
    (isA isB : Intersection) (hr : r.m_fMax ≤ FLT_MAX) :
    (Scene.GetIntersect useAccel buf r (some isA)).1
        = (Scene.GetIntersect useAccel buf r (some isB)).1
    ∧ ((Scene.GetIntersect useAccel buf r (some isA)).2).map Intersection.t
        = ((Scene.GetIntersect useAccel buf r (some isB)).2).map Intersection.t := by
  cases useAccel with
  | true =>
      rcases hch : closestHit r buf with _ | best
      · constructor
        · show (accelIntersect buf r (some ⟨FLT_MAX, isA.primitive⟩)).1
              = (accelIntersect buf r (some ⟨FLT_MAX, isB.primitive⟩)).1
          unfold accelIntersect
          rw [hch]
        · show ((accelIntersect buf r (some ⟨FLT_MAX, isA.primitive⟩)).2).map Intersection.t
              = ((accelIntersect buf r (some ⟨FLT_MAX, isB.primitive⟩)).2).map Intersection.t
          unfold accelIntersect
          rw [hch]
          rfl
      · constructor
        · show (accelIntersect buf r (some ⟨FLT_MAX, isA.primitive⟩)).1
              = (accelIntersect buf r (some ⟨FLT_MAX, isB.primitive⟩)).1
          unfold accelIntersect
          rw [hch]
        · show ((accelIntersect buf r (some ⟨FLT_MAX, isA.primitive⟩)).2).map Intersection.t
              = ((accelIntersect buf r (some ⟨FLT_MAX, isB.primitive⟩)).2).map Intersection.t
          unfold accelIntersect
          rw [hch]
  | false =>
      constructor
      · show (Scene._bfIntersect buf r (some ⟨FLT_MAX, isA.primitive⟩)).1
            = (Scene._bfIntersect buf r (some ⟨FLT_MAX, isB.primitive⟩)).1
        exact bool_eq_of_iff
          ((bf_true_iff buf r ⟨FLT_MAX, isA.primitive⟩ hr).trans
            (bf_true_iff buf r ⟨FLT_MAX, isB.primitive⟩ hr).symm)
      · show some ((Scene.bfLoopHit r ⟨FLT_MAX, isA.primitive⟩ buf).t)
            = some ((Scene.bfLoopHit r ⟨FLT_MAX, isB.primitive⟩ buf).t)
        rw [bfLoopHit_t, bfLoopHit_t]

/-- C10 witness: equal booleans for a concrete scene under two different
prior records. -/
theorem C10_witness :
    rW.m_fMax ≤ FLT_MAX
    ∧ (Scene.GetIntersect false [pW0] rW (some isW)).1
        = (Scene.GetIntersect false [pW0] rW (some isW2)).1 :=
  ⟨by norm_num [rW, FLT_MAX],
   (C10_record_independent false [pW0] rW isW isW2 (by norm_num [rW, FLT_MAX])).1⟩

/-- C8 counterexample: two primitives hitting at exactly the same distance
1, tested in the two possible orders, leave different primitive pointers
in the final hit record (first-tested wins distance ties), refuting the
claim that permutations of the buffer produce the same final primitive. -/
theorem C8_counterexample :
    ([pW0, pW1].Perm [pW1, pW0])
    ∧ (Scene._bfIntersect [pW0, pW1] rW (some isW)).2
        ≠ (Scene._bfIntersect [pW1, pW0] rW (some isW)).2 := by
  constructor
  · exact List.Perm.swap pW1 pW0 []
  · have e1 : (Scene._bfIntersect [pW0, pW1] rW (some isW)).2
        = some (⟨1, some pW0⟩ : Intersection) := by
      norm_num [Scene._bfIntersect, Scene.bfLoopHit, Primitive.recUpdate,
        pW0, pW1, rW, isW, FLT_MAX]
    have e2 : (Scene._bfIntersect [pW1, pW0] rW (some isW)).2
        = some (⟨1, some pW1⟩ : Intersection) := by
      norm_num [Scene._bfIntersect, Scene.bfLoopHit, Primitive.recUpdate,
        pW0, pW1, rW, isW, FLT_MAX]
    rw [e1, e2]
    intro h
    simp only [Option.some.injEq, Intersection.mk.injEq, true_and] at h
    have h3 := congrArg Primitive.m_id h
    simp [pW0, pW1] at h3

/-- C8 amended: for every permutation of the primitive buffer, the
brute-force path of Scene::GetIntersect returns the same boolean and, when
a hit record is supplied, the same final hit distance; the recorded
primitive may differ only when distinct primitives tie at exactly the same
distance. -/
theorem C8_permutation_invariant (buf buf' : List Primitive) (h : buf.Perm buf')
    (r : Ray) (o : Option Intersection) :
    (Scene._bfIntersect buf r o).1 = (Scene._bfIntersect buf' r o).1
    ∧ ((Scene._bfIntersect buf r o).2).map Intersection.t
        = ((Scene._bfIntersect buf' r o).2).map Intersection.t := by
  have hcands : (candsOf r buf).Perm (candsOf r buf') := h.filterMap (candT r)
  cases o with
  | none =>
      constructor
      · show Scene.bfLoopShadow r buf = Scene.bfLoopShadow r buf'
        rw [bfLoopShadow_eq_any, bfLoopShadow_eq_any]
        exact list_any_perm h _
      · rfl
  | some is =>
      have ht : (Scene.bfLoopHit r ⟨FLT_MAX, is.primitive⟩ buf).t
          = (Scene.bfLoopHit r ⟨FLT_MAX, is.primitive⟩ buf').t := by
        rw [bfLoopHit_t, bfLoopHit_t]
        exact foldl_min_perm hcands _
      have hs : (Scene.bfLoopHit r ⟨FLT_MAX, is.primitive⟩ buf).primitive.isSome
          = (Scene.bfLoopHit r ⟨FLT_MAX, is.primitive⟩ buf').primitive.isSome := by
        rw [bfLoopHit_isSome, bfLoopHit_isSome]
        congr 1
        exact list_any_perm hcands _
      constructor
      · show (decide ((Scene.bfLoopHit r ⟨FLT_MAX, is.primitive⟩ buf).t < r.m_fMax)
              && (Scene.bfLoopHit r ⟨FLT_MAX, is.primitive⟩ buf).primitive.isSome)
            = (decide ((Scene.bfLoopHit r ⟨FLT_MAX, is.primitive⟩ buf').t < r.m_fMax)
              && (Scene.bfLoopHit r ⟨FLT_MAX, is.primitive⟩ buf').primitive.isSome)
        rw [ht, hs]
      · show some ((Scene.bfLoopHit r ⟨FLT_MAX, is.primitive⟩ buf).t)
            = some ((Scene.bfLoopHit r ⟨FLT_MAX, is.primitive⟩ buf').t)
        rw [ht]

/-- C8 witness: a concrete two-primitive buffer and its transposition
yield the same hit boolean. -/
theorem C8_witness :
    ([pW0, pWmiss].Perm [pWmiss, pW0])
    ∧ (Scene._bfIntersect [pW0, pWmiss] rW (some isW)).1
        = (Scene._bfIntersect [pWmiss, pW0] rW (some isW)).1 :=
  ⟨List.Perm.swap pWmiss pW0 [],
   (C8_permutation_invariant [pW0, pWmiss] [pWmiss, pW0]
     (List.Perm.swap pWmiss pW0 []) rW (some isW)).1⟩

/-- C4: after _genLightDistribution runs on a light list whose powers have
a nonzero total, every light's pick probability (written by SetPickPDF)
equals its power divided by the total power, exactly. -/
theorem C4_light_pick_pdf (lights : List Light)
    (h : (lights.map Light.power).sum ≠ 0) :
    ∀ i, i < lights.length →
      ((Scene._genLightDistribution lights).1.getD i ⟨0, none⟩).pickPdf
        = some ((lights.getD i ⟨0, none⟩).power / (lights.map Light.power).sum) := by
  intro i hi
  have hne : ¬ (lights.length = 0) := by
    intro h0
    rw [List.length_eq_zero] at h0
    subst h0
    simp at h
  have hmain : (Scene._genLightDistribution lights).1
      = lights.map (fun l =>
          { l with pickPdf := fdiv l.power (lights.map Light.power).sum }) := by
    unfold Scene._genLightDistribution
    rw [if_neg hne]
  rw [hmain]
  have hlen : i < (lights.map (fun l =>
      { l with pickPdf := fdiv l.power (lights.map Light.power).sum })).length := by
    simpa using hi
  rw [List.getD_eq_getElem _ _ hlen, List.getElem_map, List.getD_eq_getElem _ _ hi]
  show fdiv (lights[i]).power (lights.map Light.power).sum = _
  rw [fdiv, if_neg h]

/-- C4 witness: two lights of powers 1 and 3; the first light receives
pick probability 1/4. -/
theorem C4_witness :
    (([lightA, lightB].map Light.power).sum ≠ 0)
    ∧ (0 : Nat) < [lightA, lightB].length
    ∧ ((Scene._genLightDistribution [lightA, lightB]).1.getD 0 ⟨0, none⟩).pickPdf
        = some (([lightA, lightB].getD 0 ⟨0, none⟩).power
            / ([lightA, lightB].map Light.power).sum) :=
  ⟨by norm_num [lightA, lightB], by norm_num,
   C4_light_pick_pdf [lightA, lightB] (by norm_num [lightA, lightB]) 0 (by norm_num)⟩

/-- C5 counterexample: with zero lights the distribution is never built
and SampleLight runs into the sAssertMsg assertion on the null
distribution instead of returning the null light, refuting the claim that
the call returns nothing rather than an assertion failure. -/
theorem C5_counterexample :
    (Scene._genLightDistribution []).2 = none
    ∧ Scene.SampleLight [] (Scene._genLightDistribution []).2 (1/2)
        = Except.error AssertKind.sampling
    ∧ Scene.SampleLight [] (Scene._genLightDistribution []).2 (1/2)
        ≠ Except.ok none := by
  refine ⟨rfl, ?_, ?_⟩
  · norm_num [Scene.SampleLight, Scene._genLightDistribution]
  · norm_num [Scene.SampleLight, Scene._genLightDistribution]
    exact fun h => Except.noConfusion h

/-- C5 amended: for every u in the unit interval, with zero lights the
light distribution is never built and SampleLight fails the
distribution-exists assertion (sAssertMsg, message: no light in the
scene) rather than returning the null light; the null-light return is the
fallback only when a distribution exists but sampling yields an invalid
index or a zero pdf. -/
theorem C5_zero_lights_assert (u : ℚ) (h0 : 0 ≤ u) (h1 : u ≤ 1) :
    (Scene._genLightDistribution []).2 = none
    ∧ Scene.SampleLight [] (Scene._genLightDistribution []).2 u
        = Except.error AssertKind.sampling := by
  refine ⟨rfl, ?_⟩
  show Scene.SampleLight [] none u = _
  unfold Scene.SampleLight
  rw [if_neg (by simp [h0, h1])]

/-- C5 witness: the zero-light assertion failure at the concrete sample
u = 1/2. -/
theorem C5_witness :
    ((0:ℚ) ≤ 1/2) ∧ ((1:ℚ)/2 ≤ 1)
    ∧ ((Scene._genLightDistribution []).2 = none
        ∧ Scene.SampleLight [] (Scene._genLightDistribution []).2 (1/2)
            = Except.error AssertKind.sampling) :=
  ⟨by norm_num, by norm_num,
   C5_zero_lights_assert (1/2) (by norm_num) (by norm_num)⟩

/-- C6: evaluation at the failing input, a scene with two lights of power
zero: the unguarded division by the zero total in _genLightDistribution
stores the non-finite quotient 0/0 (modelled as none) as both pick
probabilities, while SampleLight on the resulting zero-total distribution
does cleanly return the null light. -/
theorem C6_zero_total_nan_eval :
    ((Scene._genLightDistribution [lightZ, lightZ]).1.map Light.pickPdf = [none, none])
    ∧ (Scene._genLightDistribution [lightZ, lightZ]).2
        = some (Distribution1D.build [0, 0])
    ∧ (Distribution1D.build [0, 0]).total = 0
    ∧ Scene.SampleLight (Scene._genLightDistribution [lightZ, lightZ]).1
        (Scene._genLightDistribution [lightZ, lightZ]).2 (1/2) = Except.ok none := by
  refine ⟨?_, ?_, ?_, ?_⟩
  · norm_num [Scene._genLightDistribution, lightZ, fdiv]
  · norm_num [Scene._genLightDistribution, lightZ]
  · norm_num [Distribution1D.build]
  · norm_num [Scene.SampleLight, Scene._genLightDistribution, Distribution1D.build,
      Distribution1D.SampleDiscrete, lightZ]

theorem prefixSumsAux_length (l : List ℚ) : ∀ a : ℚ, (prefixSumsAux a l).length = l.length := by
  induction l with
  | nil => intro a; rfl
  | cons x xs ih => intro a; simp [prefixSumsAux, ih]

theorem prefixSumsAux_getD (l : List ℚ) : ∀ (a : ℚ) (i : Nat), i < l.length →
    (prefixSumsAux a l).getD i 0 = a + (l.take (i+1)).sum := by
  induction l with
  | nil => intro a i hi; simp at hi
  | cons x xs ih =>
      intro a i hi
      cases i with
      | zero => simp [prefixSumsAux]
      | succ i =>
          rw [prefixSumsAux, List.getD_cons_succ, ih (a+x) i (by simpa using hi),
            List.take_succ_cons, List.sum_cons]
          ring

theorem getD_map_div (l : List ℚ) (c : ℚ) : ∀ i : Nat, i < l.length →
    (l.map (fun x => x / c)).getD i 0 = l.getD i 0 / c := by
  induction l with
  | nil => intro i hi; simp at hi
  | cons x xs ih =>
      intro i hi
      cases i with
      | zero => simp
      | succ i => simpa using ih i (by simpa using hi)

theorem firstGE_lt_length {u : ℚ} : ∀ {l : List ℚ} {j : Nat},
    firstGE u l = some j → j < l.length := by
  intro l
  induction l with
  | nil => intro j h; exact absurd h (by simp [firstGE])
  | cons c cs ih =>
      intro j h
      rw [firstGE] at h
      by_cases hc : u ≤ c
      · rw [if_pos hc] at h
        cases h
        simp
      · rw [if_neg hc] at h
        cases hfg : firstGE u cs with
        | none => rw [hfg] at h; exact absurd h (by simp)
        | some j2 =>
            rw [hfg, Option.map_some'] at h
            cases h
            simpa using Nat.succ_lt_succ (ih hfg)

theorem firstGE_eq_some {u : ℚ} : ∀ (l : List ℚ) (i : Nat), i < l.length →
    (∀ j, j < i → l.getD j 0 < u) → u ≤ l.getD i 0 → firstGE u l = some i := by
  intro l
  induction l with
  | nil => intro i hi; intro _ _; simp at hi
  | cons c cs ih =>
      intro i hi hbefore hat
      cases i with
      | zero => rw [firstGE, if_pos (by simpa using hat)]
      | succ i =>
          have hc : c < u := by simpa using hbefore 0 (Nat.succ_pos i)
          rw [firstGE, if_neg (not_le.2 hc),
            ih i (by simpa using hi)
              (fun j hj => by simpa using hbefore (j+1) (Nat.succ_lt_succ hj))
              (by simpa using hat)]
          rfl

theorem build_total (f : List ℚ) :
    (Distribution1D.build f).total = (f.map fun x => max x 0).sum := rfl

theorem build_count (f : List ℚ) : (Distribution1D.build f).count = f.length := rfl

theorem build_cdf_pos (f : List ℚ) (h : (f.map fun x => max x 0).sum ≠ 0) :
    (Distribution1D.build f).cdf
      = (prefixSums (f.map fun x => max x 0)).map
          (fun c => c / (f.map fun x => max x 0).sum) := by
  show (if (f.map fun x => max x 0).sum = 0 then [] else _) = _
  rw [if_neg h]

theorem build_cdf_length (f : List ℚ) (h : (f.map fun x => max x 0).sum ≠ 0) :
    (Distribution1D.build f).cdf.length = f.length := by
  rw [build_cdf_pos f h]
  simp [prefixSums, prefixSumsAux_length]

theorem build_cdf_getD (f : List ℚ) (h : (f.map fun x => max x 0).sum ≠ 0)
    (i : Nat) (hi : i < f.length) :
    (Distribution1D.build f).cdf.getD i 0
      = ((f.map fun x => max x 0).take (i+1)).sum / (f.map fun x => max x 0).sum := by
  rw [build_cdf_pos f h,
    getD_map_div _ _ i (by simpa [prefixSums, prefixSumsAux_length] using hi),
    prefixSums, prefixSumsAux_getD _ 0 i (by simpa using hi), zero_add]

theorem w_nonneg (f : List ℚ) : ∀ x ∈ (f.map fun x => max x 0), 0 ≤ x := by
  intro x hx
  obtain ⟨y, _, rfl⟩ := List.mem_map.1 hx
  exact le_max_right y 0

theorem sampleDiscrete_eq (d : Distribution1D) (u : ℚ) (h : d.total ≠ 0) :
    d.SampleDiscrete u = (match firstGE u d.cdf with
      | some i => ((i : Int), d.weights.getD i 0 / d.total)
      | none => ((d.count : Int) - 1, d.weights.getD (d.count - 1) 0 / d.total)) := by
  unfold Distribution1D.SampleDiscrete
  rw [if_neg h]

/-- C7 counterexample: the distribution built from the weights [1, 0] has
positive total, yet sampling at u = 1 returns index 0, not the last valid
index n - 1 = 1: the first cumulative entry at or above 1 is already the
first entry when trailing weights are zero. -/
theorem C7_counterexample :
    0 < (Distribution1D.build [1, 0]).total
    ∧ ((Distribution1D.build [1, 0]).SampleDiscrete 1).1 = 0
    ∧ ((0 : Int) ≠ (2 : Int) - 1) := by
  refine ⟨?_, ?_, by norm_num⟩
  · norm_num [Distribution1D.build]
  · norm_num [Distribution1D.build, Distribution1D.SampleDiscrete, prefixSums,
      prefixSumsAux, firstGE]

/-- C7 amended: for every weight list with positive total, sampling at
u = 0 returns index 0, sampling at u = 1 returns an in-range index
(between 0 and n - 1 inclusive, never out of range), and that index is
exactly n - 1 whenever the last weight is positive (with trailing zero
weights an earlier cumulative entry already reaches 1 and its index is
returned instead). -/
theorem C7_sample_bounds (f : List ℚ) (hpos : 0 < (Distribution1D.build f).total) :
    (((Distribution1D.build f).SampleDiscrete 0).1 = 0)
    ∧ (0 ≤ ((Distribution1D.build f).SampleDiscrete 1).1
        ∧ ((Distribution1D.build f).SampleDiscrete 1).1 < (f.length : Int))
    ∧ (0 < f.getD (f.length - 1) 0 →
        ((Distribution1D.build f).SampleDiscrete 1).1 = (f.length : Int) - 1) := by
  have hsumpos : 0 < (f.map fun x => max x 0).sum := by
    rw [build_total] at hpos
    exact hpos
  have hsum : (f.map fun x => max x 0).sum ≠ 0 := ne_of_gt hsumpos
  have hne0 : (Distribution1D.build f).total ≠ 0 := ne_of_gt hpos
  have hfne : f ≠ [] := by
    intro hf
    subst hf
    norm_num at hsumpos
  have hflen : 0 < f.length := List.length_pos.2 hfne
  have hwlen : (f.map fun x => max x 0).length = f.length := by simp
  refine ⟨?_, ?_, ?_⟩
  · have ha : firstGE 0 (Distribution1D.build f).cdf = some 0 := by
      apply firstGE_eq_some
      · rw [build_cdf_length f hsum]
        exact hflen
      · intro j hj
        exact absurd hj (Nat.not_lt_zero j)
      · rw [build_cdf_getD f hsum 0 hflen]
        exact div_nonneg
          (List.sum_nonneg fun x hx => w_nonneg f x ((List.take_subset _ _) hx))
          (le_of_lt hsumpos)
    rw [sampleDiscrete_eq _ 0 hne0, ha]
    rfl
  · rw [sampleDiscrete_eq _ 1 hne0]
    cases hfg : firstGE 1 (Distribution1D.build f).cdf with
    | some i =>
        have hilt := firstGE_lt_length hfg
        rw [build_cdf_length f hsum] at hilt
        constructor
        · show (0:Int) ≤ (i : Int)
          exact Int.natCast_nonneg i
        · show (i : Int) < (f.length : Int)
          exact_mod_cast hilt
    | none =>
        have h1 : 1 ≤ (f.length : Int) := by exact_mod_cast hflen
        constructor
        · show (0:Int) ≤ ((Distribution1D.build f).count : Int) - 1
          rw [build_count]
          omega
        · show ((Distribution1D.build f).count : Int) - 1 < (f.length : Int)
          rw [build_count]
          omega
  · intro hlast
    have hidx : f.length - 1 < f.length := by omega
    have hwlast : 0 < (f.map fun x => max x 0).getD (f.length - 1) 0 := by
      have hiw : f.length - 1 < (f.map fun x => max x 0).length := by
        rw [hwlen]; exact hidx
      rw [List.getD_eq_getElem _ _ hiw, List.getElem_map]
      rw [List.getD_eq_getElem _ _ hidx] at hlast
      exact lt_max_iff.2 (Or.inl hlast)
    have hfg : firstGE 1 (Distribution1D.build f).cdf = some (f.length - 1) := by
      apply firstGE_eq_some
      · rw [build_cdf_length f hsum]
        exact hidx
      · intro j hj
        rw [build_cdf_getD f hsum j (by omega)]
        rw [div_lt_one hsumpos]
        have hsplit := List.sum_take_add_sum_drop (f.map fun x => max x 0) (j+1)
        have hjlt : j + 1 + (f.length - 1 - (j+1)) < (f.map fun x => max x 0).length := by
          rw [hwlen]; omega
        have hklt : f.length - 1 - (j+1) < ((f.map fun x => max x 0).drop (j+1)).length := by
          simp only [List.length_drop, hwlen]
          omega
        have hmem : ((f.map fun x => max x 0).drop (j+1))[f.length - 1 - (j+1)]
            ∈ (f.map fun x => max x 0).drop (j+1) := List.getElem_mem hklt
        have hval : ((f.map fun x => max x 0).drop (j+1))[f.length - 1 - (j+1)]
            = (f.map fun x => max x 0).getD (f.length - 1) 0 := by
          rw [List.getElem_drop]
          have harith : j + 1 + (f.length - 1 - (j+1)) = f.length - 1 := by omega
          rw [List.getD_eq_getElem _ _ (by rw [hwlen]; exact hidx)]
          congr 1
        have hdroppos : 0 < ((f.map fun x => max x 0).drop (j+1)).sum := by
          have hle := List.single_le_sum
            (fun y hy => w_nonneg f y ((List.drop_subset _ _) hy)) _ hmem
          rw [hval] at hle
          exact lt_of_lt_of_le hwlast hle
        linarith
      · rw [build_cdf_getD f hsum (f.length - 1) hidx]
        have harith2 : f.length - 1 + 1 = f.length := by omega
        rw [harith2, ← hwlen, List.take_length, div_self hsum]
    rw [sampleDiscrete_eq _ 1 hne0, hfg]
    show ((f.length - 1 : Nat) : Int) = (f.length : Int) - 1
    omega

/-- C7 witness: on the weights [1, 3] (positive total, positive last
weight), sampling at 0 gives index 0 and sampling at 1 gives index 1. -/
theorem C7_witness :
    0 < (Distribution1D.build [1, 3]).total
    ∧ ((((Distribution1D.build [1, 3]).SampleDiscrete 0).1 = 0)
        ∧ (0 ≤ ((Distribution1D.build [1, 3]).SampleDiscrete 1).1
            ∧ ((Distribution1D.build [1, 3]).SampleDiscrete 1).1 < (([1, 3] : List ℚ).length : Int))
        ∧ (0 < ([1, 3] : List ℚ).getD (([1, 3] : List ℚ).length - 1) 0 →
            ((Distribution1D.build [1, 3]).SampleDiscrete 1).1
              = (([1, 3] : List ℚ).length : Int) - 1)) :=
  ⟨by norm_num [Distribution1D.build],
   C7_sample_bounds [1, 3] (by norm_num [Distribution1D.build])⟩

theorem BBox.Union_self (b : BBox) : b.Union b = b := by
  cases b with
  | mk pmin pmax =>
      cases pmin
      cases pmax
      simp [BBox.Union]

theorem BBox.Union_comm (a b : BBox) : a.Union b = b.Union a := by
  simp [BBox.Union, min_comm, max_comm]

theorem BBox.Union_assoc (a b c : BBox) : (a.Union b).Union c = a.Union (b.Union c) := by
  simp [BBox.Union, min_assoc, max_assoc]

theorem foldl_Union_pull (l : List BBox) : ∀ (m x : BBox),
    BBox.Union (l.foldl BBox.Union m) x = l.foldl BBox.Union (BBox.Union m x) := by
  induction l with
  | nil => intro m x; rfl
  | cons b bs ih =>
      intro m x
      rw [List.foldl_cons, List.foldl_cons, ih]
      congr 1
      rw [BBox.Union_assoc, BBox.Union_assoc, BBox.Union_comm x b]

theorem foldl_Union_refold (l : List BBox) : ∀ m : BBox,
    l.foldl BBox.Union (l.foldl BBox.Union m) = l.foldl BBox.Union m := by
  induction l with
  | nil => intro m; rfl
  | cons b bs ih =>
      intro m
      simp only [List.foldl_cons]
      rw [foldl_Union_pull, BBox.Union_assoc, BBox.Union_self]
      exact ih (BBox.Union m b)

theorem foldr_Union_init (l : List BBox) : ∀ (m b : BBox),
    l.foldr BBox.Union (BBox.Union m b) = BBox.Union b (l.foldr BBox.Union m) := by
  induction l with
  | nil => intro m b; exact BBox.Union_comm m b
  | cons c cs ih =>
      intro m b
      rw [List.foldr_cons, List.foldr_cons, ih]
      rw [← BBox.Union_assoc, ← BBox.Union_assoc, BBox.Union_comm c b]

theorem foldl_Union_eq_foldr (l : List BBox) : ∀ m : BBox,
    l.foldl BBox.Union m = l.foldr BBox.Union m := by
  induction l with
  | nil => intro m; rfl
  | cons b bs ih =>
      intro m
      rw [List.foldl_cons, List.foldr_cons, ih, foldr_Union_init]

/-- C9: with no accelerator configured, Scene::GetBBox returns the union
of the bounding boxes of all primitives in the buffer (written spec-side
as a fold of box union from the empty sentinel), stores that box in the
scene bounding-box member field, and a repeated call on the unchanged
scene returns the same box and leaves the member field unchanged. -/
theorem C9_bbox_cached_union (buf : List Primitive) :
    (Scene.GetBBox none buf emptyBBox).1 = unionAllBoxes buf
    ∧ (Scene.GetBBox none buf emptyBBox).2 = (Scene.GetBBox none buf emptyBBox).1
    ∧ Scene.GetBBox none buf (Scene.GetBBox none buf emptyBBox).2
        = ((Scene.GetBBox none buf emptyBBox).1, (Scene.GetBBox none buf emptyBBox).2) := by
  have hcode : ∀ m : BBox, buf.foldl (fun acc p => acc.Union p.bbox) m
      = (buf.map Primitive.bbox).foldl BBox.Union m := by
    intro m
    rw [List.foldl_map]
  refine ⟨?_, rfl, ?_⟩
  · show buf.foldl (fun acc p => acc.Union p.bbox) emptyBBox = unionAllBoxes buf
    rw [hcode]
    rw [foldl_Union_eq_foldr]
    show (buf.map Primitive.bbox).foldr BBox.Union emptyBBox
        = buf.foldr (fun p acc => BBox.Union p.bbox acc) emptyBBox
    rw [List.foldr_map]
  · show (buf.foldl (fun acc p => acc.Union p.bbox)
        (buf.foldl (fun acc p => acc.Union p.bbox) emptyBBox),
        buf.foldl (fun acc p => acc.Union p.bbox)
        (buf.foldl (fun acc p => acc.Union p.bbox) emptyBBox))
      = (buf.foldl (fun acc p => acc.Union p.bbox) emptyBBox,
         buf.foldl (fun acc p => acc.Union p.bbox) emptyBBox)
    rw [hcode, hcode emptyBBox, foldl_Union_refold]

/-- C4 counterexample: at the non-empty light list consisting of one
light of power zero (zero total power), the stored pick probability is
the non-finite quotient 0/0 from the unguarded division (modelled as
none), not the claimed power-over-total value (which in the exact
rational model would be some 0), refuting the claim as stated over every
non-empty light list. -/
theorem C4_counterexample :
    0 < ([lightZ] : List Light).length
    ∧ ((Scene._genLightDistribution [lightZ]).1.getD 0 ⟨0, none⟩).pickPdf
        ≠ some ((([lightZ] : List Light).getD 0 ⟨0, none⟩).power
            / (([lightZ] : List Light).map Light.power).sum) := by
  refine ⟨by norm_num, ?_⟩
  have e1 : ((Scene._genLightDistribution [lightZ]).1.getD 0 ⟨0, none⟩).pickPdf = none := by
    norm_num [Scene._genLightDistribution, lightZ, fdiv]
  rw [e1]
  simp
